import Mathlib

/-!
Verification of the Task CRUD system of `ai-sdlc-ts`.

The repository defines a single Remult entity `Task`
(`src/shared/entities/Task.ts`), a Postgres schema and an `updatedAt`
trigger (`src/server/db/migrate.ts`), an Express server that mounts the
Remult-generated CRUD endpoints (`src/server/index.ts`,
`src/server/api/remult.ts`), a thin fetch client
(`src/client/lib/api.ts`) and a task form (`src/client/routes/tasks.tsx`).
The CRUD engine itself is the third-party Remult framework and is not in
the repository; where its behaviour decides a property the definitions
below are modelled from the spec, and each such definition says so.
Timestamps are modelled as a logical clock of type `Nat`; the cuid
generator and the clock are modelled as explicit parameters.
-/

namespace TaskApp

/-- The `Task` entity, from `src/shared/entities/Task.ts`: fields
`id` (cuid string), `title` (string, no validator declared),
`description` (nullable string), `completed` (boolean, default `false`),
`createdAt` and `updatedAt` (timestamps, here a logical `Nat` clock). -/
structure Task where
  id : String
  title : String
  description : Option String
  completed : Bool
  createdAt : Nat
  updatedAt : Nat
  deriving Repr, DecidableEq

/-- Body of a create request (`POST /api/tasks`). Each field may be absent;
an absent field takes the entity's default from `Task.ts`:
`title = ''`, `completed = false`, `description` absent. -/
structure CreateInput where
  title : Option String := none
  description : Option String := none
  completed : Option Bool := none
  deriving Repr, DecidableEq

/-- Body of an update request (`PUT /api/tasks/:id`): any subset of
{title, description, completed}. An outer `none` means the field is not in
the request; `description := some none` sets the nullable column to null.
`id`, `createdAt` and `updatedAt` are not updatable through the API:
`id` is the route key, and the `Fields.createdAt` / `Fields.updatedAt`
decorators in `Task.ts` mark those columns as framework-managed. -/
structure UpdateInput where
  title : Option String := none
  description : Option (Option String) := none
  completed : Option Bool := none
  deriving Repr, DecidableEq

/-- Error taxonomy of the system (spec §7): validation failure, missing id,
persistence failure. -/
inductive RepoError where
  | validationError
  | notFoundError
  | storageError
  deriving Repr, DecidableEq

/-- The task collection owned by the repository. The list holds the rows in
insertion order: `create` appends at the end. -/
structure Repo where
  tasks : List Task
  deriving Repr, DecidableEq

def Repo.empty : Repo := ⟨[]⟩

/-- Row built by a create request. Faithful to `Task.ts` and to the
`tasks` table of `migrate.ts`: absent `title` takes the entity default
`''`; no validator is declared on `title` in `Task.ts`, and the column
constraint `TEXT NOT NULL` is satisfied by the empty string, so the title
is stored exactly as sent, untrimmed. `createdAt` and `updatedAt` are both
set to the current time (`DEFAULT CURRENT_TIMESTAMP` on both columns,
one transaction). `newId` is the cuid generated by the framework. -/
def Task.fromCreate (newId : String) (now : Nat) (input : CreateInput) : Task :=
  { id := newId
    title := input.title.getD ""
    description := input.description
    completed := input.completed.getD false
    createdAt := now
    updatedAt := now }

/-- Modelled from the spec: the Remult-generated create operation
(`POST /tasks`, framework code not in the repository) inserts one fresh row
and returns it. The row itself (`Task.fromCreate`) comes from `Task.ts` and
`migrate.ts`; in particular no title validation happens, because none is
declared in the entity. -/
def Repo.create (s : Repo) (newId : String) (now : Nat) (input : CreateInput) :
    Task × Repo :=
  let t := Task.fromCreate newId now input
  (t, ⟨s.tasks ++ [t]⟩)

/-- Modelled from the spec: the Remult-generated get operation
(`GET /tasks/:id`, framework code not in the repository) returns the row
with the given id, or the not-found error (HTTP 404) when no row has it. -/
def Repo.get (s : Repo) (id : String) : Except RepoError Task :=
  match s.tasks.find? (fun t => t.id == id) with
  | some t => .ok t
  | none => .error .notFoundError

/-- Effect of an update request on one row. Fields present in the request
replace the stored values; `updatedAt` is re-stamped to the current time by
the `update_updated_at_column` trigger installed by `migrate.ts`
(`NEW."updatedAt" = CURRENT_TIMESTAMP` before every UPDATE). `id` and
`createdAt` are not touched. As with create, a `title` in the request is
stored as sent: no validator is declared in `Task.ts`. -/
def Task.applyUpdate (t : Task) (now : Nat) (u : UpdateInput) : Task :=
  { t with
    title := u.title.getD t.title
    description := u.description.getD t.description
    completed := u.completed.getD t.completed
    updatedAt := now }

/-- Modelled from the spec: the Remult-generated update operation
(`PUT /tasks/:id`, framework code not in the repository) fails with the
not-found error when no row has the id, otherwise rewrites the row in place
via `Task.applyUpdate` and returns the updated row. -/
def Repo.update (s : Repo) (id : String) (now : Nat) (u : UpdateInput) :
    Except RepoError (Task × Repo) :=
  match s.tasks.find? (fun t => t.id == id) with
  | none => .error .notFoundError
  | some t =>
    .ok (t.applyUpdate now u,
         ⟨s.tasks.map (fun x => if x.id == id then x.applyUpdate now u else x)⟩)

/-- Modelled from the spec: the Remult-generated delete operation
(`DELETE /tasks/:id`, framework code not in the repository) fails with the
not-found error when no row has the id, otherwise removes the row
permanently (`DELETE FROM tasks WHERE id = ...`; no soft delete column
exists in the schema of `migrate.ts`). -/
def Repo.delete (s : Repo) (id : String) : Except RepoError Repo :=
  match s.tasks.find? (fun t => t.id == id) with
  | none => .error .notFoundError
  | some _ => .ok ⟨s.tasks.filter (fun t => t.id != id)⟩

/-- Sort keys a caller may request on list; the schema of `migrate.ts`
indexes `createdAt` for exactly this query. -/
inductive SortKey where
  | createdAt
  deriving Repr, DecidableEq

/-- Modelled from the spec: the Remult-generated list operation
(`GET /tasks`, framework code not in the repository) returns all rows,
optionally restricted by a `completed` predicate, in insertion order unless
the caller requests a sort key. The client's `api.tasks.getAll`
(`src/client/lib/api.ts`) calls it with no filter and no sort key. -/
def Repo.list (s : Repo) (completedFilter : Option Bool) (sort : Option SortKey) :
    List Task :=
  let base := match completedFilter with
    | none => s.tasks
    | some b => s.tasks.filter (fun t => t.completed == b)
  match sort with
  | none => base
  | some .createdAt => base.mergeSort (fun a b => a.createdAt ≤ b.createdAt)

/-- One repository operation, with the environment inputs (generated id) it
consumes. -/
inductive Op where
  | create (newId : String) (input : CreateInput)
  | update (id : String) (u : UpdateInput)
  | delete (id : String)
  deriving Repr

/-- Run one operation at time `now`; a failed operation leaves the
collection unchanged (the HTTP layer reports the error, nothing was
written). -/
def Repo.step (s : Repo) (now : Nat) (op : Op) : Repo :=
  match op with
  | .create newId input => (s.create newId now input).2
  | .update id u =>
    match s.update id now u with
    | .ok r => r.2
    | .error _ => s
  | .delete id =>
    match s.delete id with
    | .ok sNew => sNew
    | .error _ => s

/-- Run a sequence of timestamped operations. -/
def Repo.run (s : Repo) : List (Nat × Op) → Repo
  | [] => s
  | e :: rest => (s.step e.1 e.2).run rest

/-- Row invariant used for the timestamp claims: every task satisfies
`createdAt ≤ updatedAt`, and no timestamp in the collection is ahead of
`bound` (the clock). -/
def Repo.TimesOK (s : Repo) (bound : Nat) : Prop :=
  ∀ t ∈ s.tasks, t.createdAt ≤ t.updatedAt ∧ t.updatedAt ≤ bound

/-- JS `String.prototype.trim()`: remove whitespace from both ends of the
string, working directly on the character list. -/
def jsTrim (s : String) : String :=
  ⟨((s.data.dropWhile Char.isWhitespace).reverse.dropWhile Char.isWhitespace).reverse⟩

/-- From `src/client/routes/tasks.tsx` `handleSubmit`: the form submits a
create request exactly when the typed title is non-empty after trimming
(`if (newTaskTitle.trim())` — JS string truthiness), and the request body
carries the title untrimmed (`title: newTaskTitle`); an empty description
becomes absent (`newTaskDescription || undefined`). -/
def handleSubmit (newTaskTitle newTaskDescription : String) : Option CreateInput :=
  if jsTrim newTaskTitle != "" then
    some { title := some newTaskTitle
           description := if newTaskDescription == "" then none
                          else some newTaskDescription
           completed := none }
  else none

/-- From `src/server/db/connection.ts` `testConnection`: tries to take a
client from the pool; on success releases it and returns `true`; the catch
block logs the failure and returns `false` — the error is consumed, the
function itself never throws. `connectResult` is the outcome of the
underlying `pool.connect()`. -/
def testConnection (connectResult : Except String Unit) : Except String Bool :=
  match connectResult with
  | .ok _ => .ok true
  | .error _ => .ok false

/-- Observable outcome of server startup. -/
inductive ServerOutcome where
  | listening
  | exitedWithError
  deriving Repr, DecidableEq

/-- From `src/server/index.ts` `startServer`: awaits `testConnection()`
without inspecting its boolean result, then calls `app.listen`; the catch
block (log and `process.exit(1)`) runs only when the body throws. -/
def startServer (connectResult : Except String Unit) : ServerOutcome :=
  let body : Except String ServerOutcome := do
    let _ok ← testConnection connectResult
    pure ServerOutcome.listening
  match body with
  | .ok o => o
  | .error _ => .exitedWithError



/-! ## Theorems for the claims -/

/-- C1: the spec claims that create with a title missing or empty after
trimming, and update with a title empty after trimming, fail with
`ValidationError`. `Task.ts` declares no validator on `title` and the
`TEXT NOT NULL` column accepts `''`, so on the code: create with title
`"   "` succeeds and persists the row verbatim, create with a missing title
succeeds with the entity default `""`, and update of the stored row to
title `""` succeeds as well — no operation fails. -/
theorem create_accepts_blank_title :
    jsTrim "   " = "" ∧
    (Repo.empty.create "c1" 0 { title := some "   " }).1.title = "   " ∧
    (Repo.empty.create "c1" 0 { title := some "   " }).2.tasks =
      [(Repo.empty.create "c1" 0 { title := some "   " }).1] ∧
    (Repo.empty.create "c2" 0 {}).1.title = "" ∧
    (Repo.empty.create "c1" 0 { title := some "   " }).2.update "c1" 1
        { title := some "" } =
      .ok (⟨"c1", "", none, false, 0, 1⟩,
           ⟨[⟨"c1", "", none, false, 0, 1⟩]⟩) := by
  exact ⟨by decide, rfl, rfl, rfl, rfl⟩

/-- C8: the spec claims a create that fails validation persists no record
and leaves the list count unchanged (scenario: create with title `""` gives
`ValidationError`, count unchanged). On the code create with title `""`
does not fail: it persists a row with the empty title and the list count
grows from 0 to 1. -/
theorem create_blank_title_changes_count :
    (Repo.empty.list none none).length = 0 ∧
    (Repo.empty.create "c1" 0 { title := some "" }).1.title = "" ∧
    ((Repo.empty.create "c1" 0 { title := some "" }).2.list none none).length
      = 1 := by
  exact ⟨rfl, rfl, rfl⟩

/-- C9: the spec claims storage-layer errors propagate unchanged and that no
repository-side code catches an error and silently converts it into a
non-error result. `testConnection` (connection.ts) catches the connection
failure and returns `false` instead of re-throwing, and `startServer`
(index.ts) never inspects that boolean, so a failed database connection
still ends in `app.listen`: the error is swallowed. -/
theorem connection_failure_swallowed :
    testConnection (.error "connection refused") = .ok false ∧
    startServer (.error "connection refused") = .listening ∧
    testConnection (.ok ()) = .ok true ∧
    startServer (.ok ()) = .listening := by
  exact ⟨rfl, rfl, rfl, rfl⟩

/-- C10: the task form submits a create request exactly when the typed
title is non-empty after trimming, and the request carries (and create
persists) the title exactly as typed, untrimmed. -/
theorem form_submits_untrimmed_title (title desc : String) (s : Repo)
    (newId : String) (now : Nat) :
    (jsTrim title = "" → handleSubmit title desc = none) ∧
    (jsTrim title ≠ "" →
      ∃ inp, handleSubmit title desc = some inp ∧ inp.title = some title ∧
        (s.create newId now inp).1.title = title) := by
  constructor
  · intro h
    simp [handleSubmit, h]
  · intro h
    have hb : (jsTrim title != "") = true := bne_iff_ne.mpr h
    have hsub : handleSubmit title desc =
        some { title := some title
               description := if desc == "" then none else some desc
               completed := none } := by
      unfold handleSubmit
      rw [if_pos hb]
    exact ⟨_, hsub, rfl, rfl⟩

/-- Witness for C10 at concrete inputs: a whitespace-only title sends no
request; the title `" hi "` is sent and stored with its whitespace. -/
theorem form_submits_untrimmed_title_witness :
    handleSubmit "   " "d" = none ∧
    ∃ inp, handleSubmit " hi " "" = some inp ∧ inp.title = some " hi " ∧
      (Repo.empty.create "c1" 0 inp).1.title = " hi " := by
  constructor
  · exact (form_submits_untrimmed_title "   " "d" Repo.empty "c1" 0).1 (by decide)
  · exact (form_submits_untrimmed_title " hi " "" Repo.empty "c1" 0).2 (by decide)
/-! ### Helper lemmas -/

theorem applyUpdate_id (t : Task) (now : Nat) (u : UpdateInput) :
    (t.applyUpdate now u).id = t.id := rfl

theorem applyUpdate_createdAt (t : Task) (now : Nat) (u : UpdateInput) :
    (t.applyUpdate now u).createdAt = t.createdAt := rfl

theorem applyUpdate_updatedAt (t : Task) (now : Nat) (u : UpdateInput) :
    (t.applyUpdate now u).updatedAt = now := rfl

theorem find?_map_update (l : List Task) (id : String) (now : Nat)
    (u : UpdateInput) :
    (l.map (fun x => if x.id == id then x.applyUpdate now u else x)).find?
        (fun t => t.id == id) =
      (l.find? (fun t => t.id == id)).map (fun x => x.applyUpdate now u) := by
  induction l with
  | nil => rfl
  | cons x xs ih =>
    by_cases hx : (x.id == id) = true
    · have hx2 : ((x.applyUpdate now u).id == id) = true := hx
      simp only [List.map_cons, if_pos hx]
      rw [List.find?_cons_of_pos (p := fun (t : Task) => t.id == id) _ hx2,
          List.find?_cons_of_pos (p := fun (t : Task) => t.id == id) _ hx]
      rfl
    · simp only [List.map_cons, if_neg hx]
      rw [List.find?_cons_of_neg (p := fun (t : Task) => t.id == id) _ hx,
          List.find?_cons_of_neg (p := fun (t : Task) => t.id == id) _ hx]
      exact ih

theorem find?_of_fresh (l : List Task) (id : String)
    (h : ∀ t ∈ l, t.id ≠ id) :
    l.find? (fun t => t.id == id) = none := by
  rw [List.find?_eq_none]
  intro t ht hbeq
  exact h t ht (beq_iff_eq.mp hbeq)

theorem find?_filter_ne_id (l : List Task) (id : String) :
    (l.filter (fun t => t.id != id)).find? (fun t => t.id == id) = none := by
  apply find?_of_fresh
  intro t ht
  exact bne_iff_ne.mp (List.mem_filter.mp ht).2

/-- `Repo.get` unfolded on an explicitly built collection. -/
theorem get_mk (l : List Task) (id : String) :
    Repo.get ⟨l⟩ id = match l.find? (fun t => t.id == id) with
      | some t => .ok t
      | none => .error .notFoundError := rfl

/-- C2: for every valid (non-empty after trimming) title, create followed by
get of the returned id yields a record whose title is exactly the input and
whose `completed` is `false` when the create input did not supply it. The
freshness hypothesis is the guarantee (spec §5) that the generated cuid is
distinct from every existing id. -/
theorem create_then_get_exact_title (s : Repo) (newId : String) (now : Nat)
    (input : CreateInput) (title : String)
    (htitle : input.title = some title)
    (hvalid : jsTrim title ≠ "")
    (hfresh : ∀ t ∈ s.tasks, t.id ≠ newId)
    (hnc : input.completed = none) :
    (s.create newId now input).2.get newId = .ok (s.create newId now input).1 ∧
    (s.create newId now input).1.title = title ∧
    (s.create newId now input).1.completed = false := by
  refine ⟨?_, ?_, ?_⟩
  · show Repo.get ⟨s.tasks ++ [Task.fromCreate newId now input]⟩ newId = _
    rw [get_mk, List.find?_append, find?_of_fresh _ _ hfresh, Option.none_or,
        List.find?_singleton]
    have hid : ((Task.fromCreate newId now input).id == newId) = true :=
      beq_self_eq_true newId
    rw [if_pos hid]
    rfl
  · simp [Repo.create, Task.fromCreate, htitle]
  · simp [Repo.create, Task.fromCreate, hnc]

/-- Witness for C2: creating "Buy milk" in the empty collection and reading
it back returns the record with exactly that title and `completed = false`. -/
theorem create_then_get_exact_title_witness :
    (Repo.empty.create "c1" 5 { title := some "Buy milk" }).2.get "c1" =
        .ok (Repo.empty.create "c1" 5 { title := some "Buy milk" }).1 ∧
    (Repo.empty.create "c1" 5 { title := some "Buy milk" }).1.title
        = "Buy milk" ∧
    (Repo.empty.create "c1" 5 { title := some "Buy milk" }).1.completed
        = false :=
  create_then_get_exact_title Repo.empty "c1" 5 _ "Buy milk" rfl (by decide)
    (by intro t ht; simp [Repo.empty] at ht) rfl

/-- C5: a successful update changes neither `id` nor `createdAt` of any
persisted row (the row list projected to those two fields is unchanged), and
`id` is assigned exactly once, at creation: the created row carries the
generated id and creation leaves every existing row untouched. -/
theorem update_preserves_id_createdAt (s : Repo) (id : String) (now : Nat)
    (u : UpdateInput) (tNew : Task) (sNew : Repo)
    (h : s.update id now u = .ok (tNew, sNew)) :
    sNew.tasks.map (fun t => (t.id, t.createdAt)) =
      s.tasks.map (fun t => (t.id, t.createdAt)) ∧
    ∀ (s2 : Repo) (newId : String) (now2 : Nat) (inp : CreateInput),
      (s2.create newId now2 inp).1.id = newId ∧
      (s2.create newId now2 inp).2.tasks
        = s2.tasks ++ [(s2.create newId now2 inp).1] := by
  constructor
  · unfold Repo.update at h
    cases hf : s.tasks.find? (fun t => t.id == id) with
    | none => rw [hf] at h; cases h
    | some t0 =>
      rw [hf] at h
      injection h with hp
      injection hp with h1 h2
      rw [← h2]
      show (s.tasks.map
          (fun x => if x.id == id then x.applyUpdate now u else x)).map
          (fun t => (t.id, t.createdAt)) = _
      rw [List.map_map]
      apply List.map_congr_left
      intro x hx
      by_cases hxid : (x.id == id) = true
      · simp only [Function.comp, if_pos hxid, applyUpdate_id,
          applyUpdate_createdAt]
      · simp only [Function.comp, if_neg hxid]
  · intro s2 newId now2 inp
    exact ⟨rfl, rfl⟩

/-- Witness for C5: updating the completion flag of the only stored task
keeps its id and `createdAt`. -/
theorem update_preserves_id_createdAt_witness :
    (Repo.mk [⟨"a", "x", none, true, 0, 1⟩]).tasks.map
        (fun t => (t.id, t.createdAt)) =
      (Repo.mk [⟨"a", "x", none, false, 0, 0⟩]).tasks.map
        (fun t => (t.id, t.createdAt)) ∧
    ∀ (s2 : Repo) (newId : String) (now2 : Nat) (inp : CreateInput),
      (s2.create newId now2 inp).1.id = newId ∧
      (s2.create newId now2 inp).2.tasks
        = s2.tasks ++ [(s2.create newId now2 inp).1] :=
  update_preserves_id_createdAt ⟨[⟨"a", "x", none, false, 0, 0⟩]⟩ "a" 1
    { completed := some true } ⟨"a", "x", none, true, 0, 1⟩
    ⟨[⟨"a", "x", none, true, 0, 1⟩]⟩ rfl

/-- C6: after a successful delete the record is gone for good: get of the id
fails with the not-found error, no listed task carries the id, a second
delete of the same id fails with the not-found error as well, and delete of
an id that is not present always fails with the not-found error. -/
theorem delete_is_permanent (s : Repo) (id : String) (sNew : Repo)
    (h : s.delete id = .ok sNew) :
    sNew.get id = .error .notFoundError ∧
    (∀ t ∈ sNew.list none none, t.id ≠ id) ∧
    sNew.delete id = .error .notFoundError ∧
    ∀ s2 : Repo, (∀ t ∈ s2.tasks, t.id ≠ id) →
      s2.delete id = .error .notFoundError := by
  have hS : sNew = ⟨s.tasks.filter (fun t => t.id != id)⟩ := by
    unfold Repo.delete at h
    cases hf : s.tasks.find? (fun t => t.id == id) with
    | none => rw [hf] at h; cases h
    | some t0 => rw [hf] at h; injection h with h1; exact h1.symm
  have hmem : ∀ t ∈ sNew.tasks, t.id ≠ id := by
    rw [hS]
    intro t ht
    exact bne_iff_ne.mp (List.mem_filter.mp ht).2
  have hfindnone : sNew.tasks.find? (fun t => t.id == id) = none :=
    find?_of_fresh _ _ hmem
  refine ⟨?_, ?_, ?_, ?_⟩
  · unfold Repo.get
    rw [hfindnone]
  · intro t ht
    exact hmem t ht
  · unfold Repo.delete
    rw [hfindnone]
  · intro s2 h2
    unfold Repo.delete
    rw [find?_of_fresh _ _ h2]

/-- Witness for C6: deleting the only stored task, then reading or deleting
it again, fails with the not-found error; delete on the empty collection
fails too. -/
theorem delete_is_permanent_witness :
    Repo.get Repo.empty "a" = .error .notFoundError ∧
    (∀ t ∈ Repo.list Repo.empty none none, t.id ≠ "a") ∧
    Repo.delete Repo.empty "a" = .error .notFoundError ∧
    ∀ s2 : Repo, (∀ t ∈ s2.tasks, t.id ≠ "a") →
      s2.delete "a" = .error .notFoundError :=
  delete_is_permanent ⟨[⟨"a", "x", none, false, 0, 0⟩]⟩ "a" Repo.empty rfl

/-- C4: a successful update re-stamps `updatedAt` to the operation time:
with the clock not behind any stored row the new value is at least every
prior `updatedAt`, and with a strictly ahead clock (resolution finer than
the operation latency) it is strictly greater; get after the update returns
the updated record, whose `completed` is as requested. -/
theorem update_advances_updatedAt (s : Repo) (id : String) (now : Nat)
    (u : UpdateInput) (tNew : Task) (sNew : Repo)
    (h : s.update id now u = .ok (tNew, sNew))
    (hclock : ∀ t ∈ s.tasks, t.updatedAt ≤ now) :
    tNew.updatedAt = now ∧
    (∀ t ∈ s.tasks, t.updatedAt ≤ tNew.updatedAt) ∧
    sNew.get id = .ok tNew ∧
    (∀ b, u.completed = some b → tNew.completed = b) ∧
    ((∀ t ∈ s.tasks, t.updatedAt < now) →
      ∀ t ∈ s.tasks, t.updatedAt < tNew.updatedAt) := by
  unfold Repo.update at h
  cases hf : s.tasks.find? (fun t => t.id == id) with
  | none => rw [hf] at h; cases h
  | some t0 =>
    rw [hf] at h
    injection h with hp
    injection hp with h1 h2
    have hup : tNew.updatedAt = now := by
      rw [← h1]
      rfl
    refine ⟨hup, ?_, ?_, ?_, ?_⟩
    · intro t ht
      rw [hup]
      exact hclock t ht
    · have hfindNew : sNew.tasks.find? (fun t => t.id == id) = some tNew := by
        rw [← h2]
        show (s.tasks.map
            (fun x => if x.id == id then x.applyUpdate now u else x)).find?
            (fun t => t.id == id) = some tNew
        rw [find?_map_update, hf, Option.map_some']
        exact congrArg some h1
      unfold Repo.get
      rw [hfindNew]
    · intro b hb
      rw [← h1]
      simp [Task.applyUpdate, hb]
    · intro hstrict t ht
      rw [hup]
      exact hstrict t ht

/-- Witness for C4: completing the only stored task at a strictly later
clock tick yields an updated record with `completed = true` and
`updatedAt = 1`, strictly above the prior value 0. -/
theorem update_advances_updatedAt_witness :
    (⟨"a", "x", none, true, 0, 1⟩ : Task).updatedAt = 1 ∧
    (∀ t ∈ (⟨[⟨"a", "x", none, false, 0, 0⟩]⟩ : Repo).tasks,
      t.updatedAt ≤ (⟨"a", "x", none, true, 0, 1⟩ : Task).updatedAt) ∧
    Repo.get ⟨[⟨"a", "x", none, true, 0, 1⟩]⟩ "a"
      = .ok ⟨"a", "x", none, true, 0, 1⟩ ∧
    (∀ b, ({ completed := some true } : UpdateInput).completed = some b →
      (⟨"a", "x", none, true, 0, 1⟩ : Task).completed = b) ∧
    ((∀ t ∈ (⟨[⟨"a", "x", none, false, 0, 0⟩]⟩ : Repo).tasks,
        t.updatedAt < 1) →
      ∀ t ∈ (⟨[⟨"a", "x", none, false, 0, 0⟩]⟩ : Repo).tasks,
        t.updatedAt < (⟨"a", "x", none, true, 0, 1⟩ : Task).updatedAt) :=
  update_advances_updatedAt ⟨[⟨"a", "x", none, false, 0, 0⟩]⟩ "a" 1
    { completed := some true } ⟨"a", "x", none, true, 0, 1⟩
    ⟨[⟨"a", "x", none, true, 0, 1⟩]⟩ rfl (by decide)

/-- `TimesOK` is stable under raising the clock bound. -/
theorem timesOK_mono {s : Repo} {b c : Nat} (h : s.TimesOK b) (hbc : b ≤ c) :
    s.TimesOK c :=
  fun t ht => ⟨(h t ht).1, Nat.le_trans (h t ht).2 hbc⟩

/-- One operation at the current clock preserves `TimesOK`. -/
theorem timesOK_step {s : Repo} {now : Nat} (op : Op) (h : s.TimesOK now) :
    (s.step now op).TimesOK now := by
  cases op with
  | create newId input =>
    intro t ht
    have ht2 : t ∈ s.tasks ++ [Task.fromCreate newId now input] := ht
    rcases List.mem_append.mp ht2 with h1 | h1
    · exact h t h1
    · have he : t = Task.fromCreate newId now input := by simpa using h1
      subst he
      exact ⟨Nat.le_refl _, Nat.le_refl _⟩
  | update id u =>
    intro t
    simp only [Repo.step]
    cases hf : s.tasks.find? (fun x => x.id == id) with
    | none =>
      have hu : s.update id now u = .error .notFoundError := by
        unfold Repo.update
        rw [hf]
      rw [hu]
      intro ht
      exact h t ht
    | some t0 =>
      have hu : s.update id now u = .ok (t0.applyUpdate now u,
          ⟨s.tasks.map
            (fun x => if x.id == id then x.applyUpdate now u else x)⟩) := by
        unfold Repo.update
        rw [hf]
      rw [hu]
      intro ht
      have ht2 : t ∈ s.tasks.map
          (fun x => if x.id == id then x.applyUpdate now u else x) := ht
      obtain ⟨x, hx, rfl⟩ := List.mem_map.mp ht2
      by_cases hxid : (x.id == id) = true
      · rw [if_pos hxid]
        refine ⟨?_, ?_⟩
        · rw [applyUpdate_createdAt, applyUpdate_updatedAt]
          exact Nat.le_trans (h x hx).1 (h x hx).2
        · exact Nat.le_of_eq (applyUpdate_updatedAt x now u)
      · rw [if_neg hxid]
        exact h x hx
  | delete id =>
    intro t
    simp only [Repo.step]
    cases hf : s.tasks.find? (fun x => x.id == id) with
    | none =>
      have hd : s.delete id = .error .notFoundError := by
        unfold Repo.delete
        rw [hf]
      rw [hd]
      intro ht
      exact h t ht
    | some t0 =>
      have hd : s.delete id
          = .ok ⟨s.tasks.filter (fun x => x.id != id)⟩ := by
        unfold Repo.delete
        rw [hf]
      rw [hd]
      intro ht
      exact h t (List.mem_filter.mp ht).1

/-- Running a trace whose operation times never decrease preserves
`TimesOK` up to some final bound. -/
theorem timesOK_run : ∀ (ops : List (Nat × Op)) (s : Repo) (b : Nat),
    s.TimesOK b → List.Chain (fun x y => x ≤ y) b (ops.map Prod.fst) →
    ∃ c, (s.run ops).TimesOK c
  | [], _, b, hs, _ => ⟨b, hs⟩
  | (now, op) :: rest, s, b, hs, hchain =>
    match hchain with
    | .cons hbn hrest =>
      timesOK_run rest (s.step now op) now
        (timesOK_step op (timesOK_mono hs hbn)) hrest

/-- C3: along every run from the empty collection whose operation times
never decrease, every persisted task satisfies `createdAt ≤ updatedAt`
after every operation; and immediately after creation the two timestamps
coincide. -/
theorem createdAt_le_updatedAt_invariant (ops : List (Nat × Op))
    (hmono : List.Chain (fun x y => x ≤ y) 0 (ops.map Prod.fst)) :
    (∀ t ∈ (Repo.empty.run ops).tasks, t.createdAt ≤ t.updatedAt) ∧
    ∀ (s : Repo) (newId : String) (now : Nat) (inp : CreateInput),
      (s.create newId now inp).1.createdAt
        = (s.create newId now inp).1.updatedAt := by
  constructor
  · obtain ⟨c, hc⟩ := timesOK_run ops Repo.empty 0
      (by intro t ht; simp [Repo.empty] at ht) hmono
    exact fun t ht => (hc t ht).1
  · intro s newId now inp
    rfl

/-- Witness for C3 on a concrete monotone trace: create at time 1, complete
at time 2; every surviving row satisfies `createdAt ≤ updatedAt`. -/
theorem createdAt_le_updatedAt_invariant_witness :
    (∀ t ∈ (Repo.empty.run
        [(1, .create "a" { title := some "x" }),
         (2, .update "a" { completed := some true })]).tasks,
      t.createdAt ≤ t.updatedAt) ∧
    ∀ (s : Repo) (newId : String) (now : Nat) (inp : CreateInput),
      (s.create newId now inp).1.createdAt
        = (s.create newId now inp).1.updatedAt :=
  createdAt_le_updatedAt_invariant
    [(1, .create "a" { title := some "x" }),
     (2, .update "a" { completed := some true })]
    (List.Chain.cons (by decide) (List.Chain.cons (by decide) List.Chain.nil))

/-- C7: list with no sort key returns all tasks — optionally restricted by
the completed predicate — in insertion order: it returns the collection list
itself, the list create extends at its end; a caller-requested `createdAt`
sort key overrides that order, returning the same tasks as a permutation
sorted by `createdAt`. -/
theorem list_order_and_sort (s : Repo) (b : Bool) (newId : String) (now : Nat)
    (inp : CreateInput) :
    s.list none none = s.tasks ∧
    s.list (some b) none = s.tasks.filter (fun t => t.completed == b) ∧
    (s.create newId now inp).2.tasks
      = s.tasks ++ [(s.create newId now inp).1] ∧
    (s.list none (some .createdAt)).Perm s.tasks ∧
    List.Sorted (fun a c => a.createdAt ≤ c.createdAt)
      (s.list none (some .createdAt)) := by
  refine ⟨rfl, rfl, rfl, ?_, ?_⟩
  · exact List.mergeSort_perm s.tasks _
  · have hs := @List.sorted_mergeSort Task
      (fun a c => decide (a.createdAt ≤ c.createdAt))
      (fun a c d hac hcd => decide_eq_true
        (Nat.le_trans (of_decide_eq_true hac) (of_decide_eq_true hcd)))
      (fun a c => by
        rcases Nat.le_total a.createdAt c.createdAt with h | h
        · simp [decide_eq_true h]
        · simp [decide_eq_true h])
      s.tasks
    exact List.Pairwise.imp (fun h => of_decide_eq_true h) hs

end TaskApp
